import Mathlib

/-!
# busl: stream broker, HTTP publish handler, encoders

A shallow embedding of the Go sources

* `broker/redis.go`     (pool counter, channel keys, `RedisRegistrar`, `Get`)
* `server/endpoints.go` (`Server.publish`)
* `encoders/text.go`    (`textEncoder.Seek`)
* `busltee/logger.go`, `busltee/log.go` (`LogFields.Set`, the logging helpers)

together with the parts of the broker and of the SSE encoder that these call
or that their tests exercise, modelled from the specification where the Go
file is not among the sources.

Go values are modelled as follows.  A `string` used as a Redis key is a Lean
`String`; a `[]byte` payload is a `List Byte`; an `int64` is an `Int` reduced
with `wrap64` wherever the code does arithmetic on it; an `error` is an
`Option GoError` (`none` is `nil`).  Everything a function does besides
returning (metrics, logging, closing, starting a goroutine) is appended to
a trace of `Effect`s, so that the order of such actions can be stated.
-/

namespace Busl

/-! ## Go values -/

abbrev Byte := UInt8

/-- The bytes of a Go string literal, `[]byte(s)`. -/
def bytes (s : String) : List Byte := s.toUTF8.data.toList

/-- Two's complement reduction of an integer to `int64`. -/
def wrap64 (x : Int) : Int := (x + 2 ^ 63) % 2 ^ 64 - 2 ^ 63

/-- Go `error` values, as far as the sources tell them apart: by identity
(`err == io.ErrUnexpectedEOF`), by a type assertion (`err.(net.Error)`, whose
`Timeout()` is the flag), or not at all (`other`). -/
inductive GoError where
  | EOF
  | ErrUnexpectedEOF
  | netError (timeout : Bool) (msg : String)
  | ErrNotRegistered
  | ErrAlreadyDone
  | ErrGone
  | ErrNil
  | other (msg : String)
  deriving DecidableEq, Repr

/-- Everything observable that the code does besides returning a value. -/
inductive Effect where
  /-- `util.CountWithData(metric, n, ..., err)` -/
  | count (metric : String) (n : Int) (err : Option GoError)
  /-- `util.SampleWithData(metric, n, extraData)` -/
  | sample (metric : String) (n : Int) (extraData : String)
  /-- `log.Printf("%#v", err)` -/
  | logPrintf (err : GoError)
  /-- `rollbar.Error(rollbar.ERR, ...)` -/
  | rollbar (err : GoError)
  /-- `r.Body.Close()` -/
  | bodyClose
  /-- `writer.Close()` -/
  | writerClose (key : String)
  /-- `go storeOutput(key, uri, s.StorageBaseURL)` -/
  | goStoreOutput (key : String) (uri : String)
  deriving DecidableEq, Repr

/-! ## The Redis key space and a connection to it -/

/-- One Redis key: its value and its remaining time to live in seconds
(`none`: the key does not expire). -/
structure Entry where
  value : List Byte
  ttl : Option Int
  deriving DecidableEq, Repr

/-- The key space at one instant. -/
abbrev Store := String → Option Entry

/-- Point update of the key space. -/
def Store.set (st : Store) (key : String) (e : Entry) : Store :=
  fun k => if k = key then some e else st k

/-- The empty key space. -/
def Store.empty : Store := fun _ => none

/-- The process state the sources act on: the Redis key space, the outcome of
the coming `conn.Do` round trips (`some e`: that round trip fails with `e`
before reaching the server; an exhausted list means success), the counter
`redisPool.c`, and the trace of effects so far. -/
structure State where
  store : Store
  faults : List (Option GoError)
  c : Int
  trace : List Effect

/-- Append one effect to the trace. -/
def State.emit (s : State) (e : Effect) : State :=
  { s with trace := s.trace ++ [e] }

/-- A state with the given key space, no faults pending, and the pool as
`newPool` returns it (`&pool{p, 0}`). -/
def State.init (st : Store) : State :=
  { store := st, faults := [], c := 0, trace := [] }

/-- The outcome of the next round trip to Redis: the head of `faults` is
consumed. -/
def State.roundTrip (s : State) : State × Option GoError :=
  match s.faults with
  | f :: rest => ({ s with faults := rest }, f)
  | [] => (s, none)

/-- `redisKeyExpire = 60`. -/
def redisKeyExpire : Int := 60

/-- `redisChannelExpire = redisKeyExpire * 60`. -/
def redisChannelExpire : Int := wrap64 (redisKeyExpire * 60)

/-- `(*pool).Get`: `atomic.AddInt64(&p.c, 1)`, then the sample. -/
def pool.Get (s : State) : State :=
  let n := wrap64 (s.c + 1)
  ({ s with c := n }).emit (.sample "redis.connections" n "at=acquire")

/-- `Conn.Close`: `atomic.AddInt64(&c.p.c, -1)`, then the sample. -/
def Conn.Close (s : State) : State :=
  let n := wrap64 (s.c + -1)
  ({ s with c := n }).emit (.sample "redis.connections" n "at=release")

/-- The Redis commands the sources send. -/
inductive Cmd where
  | SETEX (key : String) (seconds : Int) (value : List Byte)
  | EXISTS (key : String)
  | GET (key : String)
  deriving DecidableEq, Repr

/-- Replies of `conn.Do`. -/
inductive Reply where
  | null
  | status (s : String)
  | integer (n : Int)
  | bulk (b : List Byte)
  deriving DecidableEq, Repr

/-- What the server does with a command that reached it. -/
def Cmd.exec (cmd : Cmd) (st : Store) : Store × Reply × Option GoError :=
  match cmd with
  | .SETEX key seconds value =>
    if seconds ≤ 0 then (st, .null, some (.other "ERR invalid expire time in setex"))
    else (st.set key ⟨value, some seconds⟩, .status "OK", none)
  | .EXISTS key => (st, .integer (if (st key).isSome then 1 else 0), none)
  | .GET key =>
    match st key with
    | some e => (st, .bulk e.value, none)
    | none => (st, .null, none)

/-- `conn.Do(cmd, args...)`: one round trip.  A pending fault is consumed and
returned, the key space untouched; otherwise the server executes the
command. -/
def Conn.Do (cmd : Cmd) (s : State) : State × Reply × Option GoError :=
  match s.roundTrip with
  | (s, some e) => (s, .null, some e)
  | (s, none) =>
    let r := cmd.exec s.store
    ({ s with store := r.1 }, r.2)

/-- `strconv.ParseBool` on the bytes of a bulk reply. -/
def parseBool (b : List Byte) : Option Bool :=
  if b ∈ [bytes "1", bytes "t", bytes "T", bytes "TRUE", bytes "true", bytes "True"] then some true
  else if b ∈ [bytes "0", bytes "f", bytes "F", bytes "FALSE", bytes "false", bytes "False"] then
    some false
  else none

/-- `redis.Bool(reply, err)`. -/
def redisBool (r : Reply × Option GoError) : Bool × Option GoError :=
  match r with
  | (_, some e) => (false, some e)
  | (.integer n, none) => (n != 0, none)
  | (.bulk b, none) =>
    match parseBool b with
    | some v => (v, none)
    | none => (false, some (.other "strconv.ParseBool: invalid syntax"))
  | (.null, none) => (false, some .ErrNil)
  | (.status _, none) => (false, some (.other "redigo: unexpected type for Bool"))

/-- `redis.Bytes(reply, err)`. -/
def redisBytes (r : Reply × Option GoError) : List Byte × Option GoError :=
  match r with
  | (_, some e) => ([], some e)
  | (.bulk b, none) => (b, none)
  | (.status s, none) => (bytes s, none)
  | (.null, none) => ([], some .ErrNil)
  | (.integer _, none) => ([], some (.other "redigo: unexpected type for Bytes"))

/-! ## `broker/redis.go`: channel keys and the registrar -/

/-- `type channel string`. -/
abbrev channel := String

/-- `channel.id`. -/
def channel.id (c : channel) : String := c ++ ":id"

/-- `channel.wildcardID`. -/
def channel.wildcardID (c : channel) : String := c ++ ":*"

/-- `channel.doneID`. -/
def channel.doneID (c : channel) : String := c ++ ":done"

/-- `channel.killID`. -/
def channel.killID (c : channel) : String := c ++ ":kill"

/-- `(*RedisRegistrar).Register`. -/
def RedisRegistrar.Register (channelName : String) (s : State) : State × Option GoError :=
  let s := pool.Get s
  let ch : channel := channelName
  let r := Conn.Do (.SETEX (channel.id ch) redisChannelExpire []) s
  let s := r.1
  let err := r.2.2
  let s := match err with
    | some e => s.emit (.count "RedisRegistrar.Register.error" 1 (some e))
    | none => s
  (Conn.Close s, err)

/-- `(*RedisRegistrar).IsRegistered`. -/
def RedisRegistrar.IsRegistered (channelName : String) (s : State) :
    State × Bool × Option GoError :=
  let s := pool.Get s
  let ch : channel := channelName
  let r := Conn.Do (.EXISTS (channel.id ch)) s
  let s := r.1
  let res := redisBool r.2
  let s := match res.2 with
    | some e => s.emit (.count "RedisRegistrar.IsRegistered.error" 1 (some e))
    | none => s
  (Conn.Close s, res)

/-- `broker.Get`. -/
def Get (key : String) (s : State) : State × List Byte × Option GoError :=
  let s := pool.Get s
  let ch : channel := key
  let r := Conn.Do (.GET (channel.id ch)) s
  (Conn.Close r.1, redisBytes r.2)

/-! ## The broker's writer -/

/-- The byte log of a stream: the value at its bare key, empty when the key
is absent. -/
def logOf (st : Store) (key : String) : List Byte :=
  match st key with
  | some e => e.value
  | none => []

/-- A writer handle. -/
structure Writer where
  key : String
  deriving DecidableEq, Repr

/-- Modelled from the spec: `broker.NewWriter` (the broker's writer is not
among the sources).  Section 4.3: fail `NotRegistered` if `:id` is absent,
fail `AlreadyDone` if `:done` is set, otherwise return a handle.  One round
trip, whose failure is returned as it is. -/
def NewWriter (key : String) (s : State) : State × Except GoError Writer :=
  match s.roundTrip with
  | (s, some e) => (s, .error e)
  | (s, none) =>
    if (s.store (channel.id key)).isNone then (s, .error .ErrNotRegistered)
    else if (s.store (channel.doneID key)).isSome then (s, .error .ErrAlreadyDone)
    else (s, .ok ⟨key⟩)

/-- Modelled from the spec: `broker.Len` (not among the sources).  Section
4.2, `Length`: the current log byte length, 0 if no bytes yet, `Gone` if the
stream is unregistered. -/
def Len (w : Writer) (s : State) : State × Int × Option GoError :=
  match s.roundTrip with
  | (s, some e) => (s, 0, some e)
  | (s, none) =>
    if (s.store (channel.id w.key)).isNone then (s, 0, some .ErrGone)
    else (s, ((logOf s.store w.key).length : Int), none)

/-- Modelled from the spec: the writer's `Write` (not among the sources).
Section 4.2, `Append`: appends to the log at the bare key and refreshes its
TTL; fails with `Gone` if `:id` expired.  The notification published on the
topic is outside this model. -/
def Writer.Write (w : Writer) (p : List Byte) (s : State) : State × Option GoError :=
  match s.roundTrip with
  | (s, some e) => (s, some e)
  | (s, none) =>
    if (s.store (channel.id w.key)).isNone then (s, some .ErrGone)
    else
      ({ s with store := s.store.set w.key ⟨logOf s.store w.key ++ p, some redisChannelExpire⟩ },
        none)

/-- Modelled from the spec: the writer's `Close` (not among the sources).
Section 4.3: sets `:done`.  The spec fixes only the presence of the marker;
it is stored here like the registration marker. -/
def Writer.Close (w : Writer) (s : State) : State × Option GoError :=
  match s.roundTrip with
  | (s, some e) => (s, some e)
  | (s, none) =>
    ({ s with store := s.store.set (channel.doneID w.key) ⟨[], some redisChannelExpire⟩ }, none)

/-! ## `server/endpoints.go`: the publish handler -/

/-- Modelled from the spec: `util.StringInSlice` (not among the sources of
package `util`): whether the slice holds the value (section 6: chunked
`Transfer-Encoding` required). -/
def StringInSlice (slice : List String) (val : String) : Bool :=
  slice.contains val

/-- A request body as the handler reads it: the bytes that arrive, and how
the body ends (`none`: a clean `io.EOF`). -/
structure Body where
  data : List Byte
  err : Option GoError
  deriving DecidableEq, Repr

/-- The parts of `*http.Request` the handler uses; `key` and `requestURI`
are the results of `key(r)` and `requestURI(r)`. -/
structure Request where
  TransferEncoding : List String
  key : String
  requestURI : String
  Body : Body
  deriving DecidableEq, Repr

/-- An `http.ResponseWriter`: the status code once `WriteHeader` has been
called, and the body written so far. -/
structure ResponseWriter where
  status : Option Nat
  body : List Byte
  deriving DecidableEq, Repr

/-- A response nothing has been written to. -/
def ResponseWriter.fresh : ResponseWriter := ⟨none, []⟩

/-- `http.Error(w, msg, code)`: `WriteHeader(code)` (ignored when a header
has been written already), then the message and a newline. -/
def httpError (w : ResponseWriter) (msg : String) (code : Nat) : ResponseWriter :=
  { status := some (w.status.getD code), body := w.body ++ bytes msg ++ bytes "\n" }

/-- `(*bufio.Reader).Discard(n)`: skips `n` bytes; when fewer arrive, the
error that ended the body. -/
def Discard (b : Body) (n : Nat) : Body × Option GoError :=
  if n ≤ b.data.length then ({ b with data := b.data.drop n }, none)
  else ({ b with data := [] }, some (b.err.getD .EOF))

/-- `defaultBufSize` of package `bufio`, the size of the buffer of
`bufio.NewReader`. -/
def defaultBufSize : Nat := 4096

/-- The buffers in which the copy hands the bytes of the body to the writer:
each holds up to `defaultBufSize` bytes, the first starts at the first byte
the copy reads and the next one where the last one ended.  The first argument
bounds the number of buffers; the length of the data is enough. -/
def copyBuffers : Nat → List Byte → List (List Byte)
  | 0, _ => []
  | fuel + 1, data =>
    if data = [] then []
    else data.take defaultBufSize :: copyBuffers fuel (data.drop defaultBufSize)

/-- One `Write` for each buffer, in order; the first write that fails ends
the loop with its error, the buffers written before it stay written. -/
def writeBuffers (wr : Writer) : List (List Byte) → State → State × Option GoError
  | [], s => (s, none)
  | p :: ps, s =>
    match wr.Write p s with
    | (s, some e) => (s, some e)
    | (s, none) => writeBuffers wr ps s

/-- `io.Copy(writer, body)` with `body` the `bufio.Reader` over the request
body: the bytes that arrive are written buffer by buffer, one `Write` for
each buffer of up to 4096 bytes; a failed write ends the copy and is
returned, with the earlier buffers stored; otherwise the error that ended the
body is returned unless it is `io.EOF`. -/
def ioCopy (wr : Writer) (b : Body) (s : State) : State × Option GoError :=
  let rerr := if b.err = some .EOF then none else b.err
  match writeBuffers wr (copyBuffers b.data.length b.data) s with
  | (s, some e) => (s, some e)
  | (s, none) => (s, rerr)

/-- The discard step of `publish`: `if wl > 0 { body.Discard(int(wl)) }`. -/
def discardStored (b : Body) (wl : Int) : Body × Option GoError :=
  if wl > 0 then Discard b wl.toNat else (b, none)

/-- `(*Server).publish`.  `handleError` (not among the sources) is a
parameter: it writes a response for an error. -/
def publish (handleError : ResponseWriter → Request → GoError → ResponseWriter)
    (w : ResponseWriter) (r : Request) (s : State) : ResponseWriter × State :=
  if !StringInSlice r.TransferEncoding "chunked" then
    (httpError w "A chunked Transfer-Encoding header is required." 400, s)
  else
    match NewWriter r.key s with
    | (s, .error err) => (handleError w r err, s)
    | (s, .ok writer) =>
      -- `defer r.Body.Close()` runs when the handler returns
      match Len writer s with
      | (s, _, some err) => (handleError w r err, s.emit .bodyClose)
      | (s, wl, none) =>
        match discardStored r.Body wl with
        | (_, some err) => (handleError w r err, s.emit .bodyClose)
        | (body, none) =>
          match ioCopy writer body s with
          | (s, some .ErrUnexpectedEOF) =>
            (w, (s.emit (.count "server.pub.read.eoferror" 1 (some .ErrUnexpectedEOF))).emit
              .bodyClose)
          | (s, some (.netError true msg)) =>
            (handleError w r (.netError true msg),
              (s.emit (.count "server.pub.read.timeout" 1 (some (.netError true msg)))).emit
                .bodyClose)
          | (s, some err) =>
            (httpError w "Unhandled error, please try again." 500,
              ((s.emit (.logPrintf err)).emit (.rollbar err)).emit .bodyClose)
          | (s, none) =>
            let s := (writer.Close (s.emit (.writerClose writer.key))).1
            (w, (s.emit (.goStoreOutput r.key r.requestURI)).emit .bodyClose)

/-- Whether `publish` gets past every return that precedes `writer.Close()`:
the request is chunked, `NewWriter`, `Len` and the discard succeed, and the
copy returns no error. -/
def publishesCleanly (r : Request) (s : State) : Bool :=
  StringInSlice r.TransferEncoding "chunked" &&
    match NewWriter r.key s with
    | (_, .error _) => false
    | (s, .ok writer) =>
      match Len writer s with
      | (_, _, some _) => false
      | (s, wl, none) =>
        match discardStored r.Body wl with
        | (_, some _) => false
        | (body, none) => (ioCopy writer body s).2.isNone

/-- The effects of one call of `publish`: what it appends to the trace. -/
def publishEffects (handleError : ResponseWriter → Request → GoError → ResponseWriter)
    (w : ResponseWriter) (r : Request) (s : State) : List Effect :=
  (publish handleError w r s).2.trace.drop s.trace.length

/-- The closes of a writer and the starts of an upload in a trace, in
order. -/
def closesAndUploads (t : List Effect) : List Effect :=
  t.filter fun e =>
    match e with
    | .writerClose _ => true
    | .goStoreOutput _ _ => true
    | _ => false

/-- A key space in which stream `key` is registered and holds `log`, as after
`Register(key)` and one `Write(log)` of a first writer. -/
def registeredWith (key : String) (log : List Byte) : State :=
  let s := (RedisRegistrar.Register key (State.init Store.empty)).1
  if log = [] then s else (Writer.Write ⟨key⟩ log s).1

/-- An error handler for concrete runs: `404` with the message of the tests. -/
def notFoundHandler : ResponseWriter → Request → GoError → ResponseWriter :=
  fun w _ _ => httpError w "Channel is not registered." 404

/-! ## `encoders/text.go` and the SSE encoder -/

/-- `io.SeekStart`. -/
def SeekStart : Int := 0

/-- `io.SeekCurrent`. -/
def SeekCurrent : Int := 1

/-- `io.SeekEnd`. -/
def SeekEnd : Int := 2

/-- The `io.ReadCloser` an encoder wraps: whether it also is an
`io.ReadSeeker` (as the tests' `readSeekerCloser` over a `strings.Reader`) or
not (as their `limitedReadCloser`, or an HTTP response body), the bytes behind
it, its position, and the sizes of the chunks its coming `Read` calls hand
out (an exhausted list: a `Read` hands out all that is left). -/
structure Reader where
  seekable : Bool
  data : List Byte
  pos : Int
  reads : List Nat
  deriving DecidableEq, Repr

/-- `(*strings.Reader).Seek`, the `Seek` of a seekable `Reader`. -/
def Reader.Seek (r : Reader) (offset : Int) (whence : Int) : Reader × Int × Option GoError :=
  let abs : Option Int :=
    if whence = SeekStart then some offset
    else if whence = SeekCurrent then some (wrap64 (r.pos + offset))
    else if whence = SeekEnd then some (wrap64 ((r.data.length : Int) + offset))
    else none
  match abs with
  | none => (r, 0, some (.other "strings.Reader.Seek: invalid whence"))
  | some abs =>
    if abs < 0 then (r, 0, some (.other "strings.Reader.Seek: negative position"))
    else ({ r with pos := abs }, abs, none)

/-- The chunks the successive `Read` calls return until `io.EOF`. -/
def Reader.chunksFrom : List Nat → List Byte → List (List Byte)
  | [], rest => if rest = [] then [] else [rest]
  | n :: ns, rest => if rest = [] then [] else rest.take n :: Reader.chunksFrom ns (rest.drop n)

/-- The chunks a reader returns from its position on. -/
def Reader.chunks (r : Reader) : List (List Byte) :=
  Reader.chunksFrom r.reads (r.data.drop r.pos.toNat)

/-- `type textEncoder struct`. -/
structure textEncoder where
  ReadCloser : Reader
  offset : Int
  deriving DecidableEq, Repr

/-- `NewTextEncoder`. -/
def NewTextEncoder (r : Reader) : textEncoder :=
  { ReadCloser := r, offset := 0 }

/-- `(*textEncoder).Seek`. -/
def textEncoder.Seek (r : textEncoder) (offset : Int) (whence : Int) :
    textEncoder × Int × Option GoError :=
  if r.ReadCloser.seekable then
    let res := r.ReadCloser.Seek offset whence
    let r : textEncoder := { ReadCloser := res.1, offset := res.2.1 }
    (r, r.offset, res.2.2)
  else
    if whence ≠ SeekStart then (r, 0, some (.other "Only SeekStart is supported"))
    else
      let r : textEncoder := { r with offset := wrap64 (r.offset + offset) }
      (r, r.offset, none)

/-- `bytes.Split(msg, []byte("\n"))`: the runs between newlines; a message
that ends in a newline has an empty last run. -/
def splitNewline : List Byte → List (List Byte)
  | [] => [[]]
  | b :: bs =>
    if b = 10 then [] :: splitNewline bs
    else
      match splitNewline bs with
      | l :: ls => (b :: l) :: ls
      | [] => [[b]]

/-- One `data: <text>\n` line. -/
def sseDataLine (text : List Byte) : List Byte :=
  bytes "data: " ++ text ++ bytes "\n"

/-- Modelled from the spec: the framing of one chunk by the SSE encoder
(`encoders/sse.go` is not among the sources).  Section 4.5: one `data:` line
for each run between newlines and an `id:` line with the offset right after
the chunk, the event closed by an empty line.  The `id:` line comes first, as
in every row of the reference table of section 4.5 and of `sse_test.go`. -/
def sseFormat (pos : Int) (msg : List Byte) : List Byte :=
  bytes ("id: " ++ toString pos ++ "\n") ++ ((splitNewline msg).map sseDataLine).flatten ++ bytes "\n"

/-- Modelled from the spec: the SSE encoder's state, the wrapped reader and
the logical offset. -/
structure sseEncoder where
  reader : Reader
  offset : Int
  deriving DecidableEq, Repr

/-- Modelled from the spec: `NewSSEEncoder`. -/
def NewSSEEncoder (r : Reader) : sseEncoder :=
  { reader := r, offset := 0 }

/-- Modelled from the spec: the SSE encoder's `Seek`, that of the plain
encoder (section 4.5: passed through to a seekable reader, otherwise only
the logical offset is updated). -/
def sseEncoder.Seek (e : sseEncoder) (offset : Int) (whence : Int) :
    sseEncoder × Int × Option GoError :=
  let res := textEncoder.Seek { ReadCloser := e.reader, offset := e.offset } offset whence
  ({ reader := res.1.ReadCloser, offset := res.1.offset }, res.2)

/-- Modelled from the spec: the events for the chunks read one after the
other.  Section 4.5: a chunk of zero bytes emits nothing; otherwise the
offset advances by the chunk and the chunk is framed. -/
def sseFrames (offset : Int) : List (List Byte) → List Byte
  | [] => []
  | c :: cs =>
    if c = [] then sseFrames offset cs
    else sseFormat (offset + c.length) c ++ sseFrames (offset + c.length) cs

/-- Modelled from the spec: everything read from the encoder until `io.EOF`
(the tests' `readstring`). -/
def sseEncoder.readAll (e : sseEncoder) : List Byte :=
  sseFrames e.offset e.reader.chunks

/-- The output the framing rule states for input `s` read from offset `k`:
nothing when `k` is at or past the end, otherwise one event, its `id:` the
length of `s`, with one `data:` line for each run of `s[k:]` between
newlines. -/
def sseSingleEvent (k : Nat) (s : List Byte) : List Byte :=
  if s.length ≤ k then []
  else
    bytes ("id: " ++ toString (s.length : Int) ++ "\n") ++
      ((splitNewline (s.drop k)).map sseDataLine).flatten ++ bytes "\n"

/-- The output of an SSE encoder over `input` after `Seek(offset, io.SeekStart)`,
read to the end, as `TestSSENoNewline` does. -/
def sseOutput (r : Reader) (offset : Int) : List Byte :=
  ((NewSSEEncoder r).Seek offset SeekStart).1.readAll

/-- The tests' `readSeekerCloser{strings.NewReader(input)}`. -/
def readSeekerCloser (input : List Byte) : Reader :=
  { seekable := true, data := input, pos := 0, reads := [] }


/-! ## `broker/redis.go`: runs of the pool, keys of a stream -/

/-- One call on the pool: `redisPool.Get()`, or `Close()` on the connection
that the `conn`-th `Get` returned (counted from 0). -/
inductive PoolOp where
  | get
  | close (conn : Nat)
  deriving DecidableEq, Repr

/-- One call: both act on the counter of the pool the connection came from. -/
def poolStep (s : State) : PoolOp → State
  | .get => pool.Get s
  | .close _ => Conn.Close s

/-- A sequence of calls, one after the other. -/
def poolRun (s : State) (ops : List PoolOp) : State :=
  ops.foldl poolStep s

/-- The bookkeeping of a run: how many connections have been obtained, and
which of them are not yet closed. -/
def poolTrack (t : Nat × List Nat) : PoolOp → Nat × List Nat
  | .get => (t.1 + 1, t.1 :: t.2)
  | .close conn => (t.1, t.2.erase conn)

/-- The connections obtained and not yet closed after a sequence of calls. -/
def poolOpen (t : Nat × List Nat) (ops : List PoolOp) : List Nat :=
  (ops.foldl poolTrack t).2

/-- Every `Close` of the sequence is on a connection that has been obtained
and not closed before. -/
def poolWellFormed (t : Nat × List Nat) : List PoolOp → Bool
  | [] => true
  | .get :: ops => poolWellFormed (poolTrack t .get) ops
  | .close conn :: ops => decide (conn ∈ t.2) && poolWellFormed (poolTrack t (.close conn)) ops

/-- What a run reports: for each call one sample of `redis.connections`,
its value the number of connections obtained and not yet closed after that
call. -/
def poolReports (t : Nat × List Nat) : List PoolOp → List Effect
  | [] => []
  | .get :: ops =>
    .sample "redis.connections" ((poolTrack t .get).2.length : Int) "at=acquire" ::
      poolReports (poolTrack t .get) ops
  | .close conn :: ops =>
    .sample "redis.connections" ((poolTrack t (.close conn)).2.length : Int) "at=release" ::
      poolReports (poolTrack t (.close conn)) ops

/-- The keys of a stream: the bare log key and the three markers. -/
def channel.keys (c : channel) : List String :=
  [c, channel.id c, channel.doneID c, channel.killID c]

/-- Modelled from the spec: `Kill` of the registry (not among the sources).
Section 4.1: sets `:kill`; one key is touched.  The marker is stored like
the registration marker. -/
def Kill (channelName : String) (s : State) : State × Option GoError :=
  match s.roundTrip with
  | (s, some e) => (s, some e)
  | (s, none) =>
    ({ s with store := s.store.set (channel.killID channelName) ⟨[], some redisChannelExpire⟩ },
      none)

/-! ## `busltee/logger.go` and `busltee/log.go` -/

/-- The result of a call that may end in a run-time panic. -/
inductive Outcome (α : Type) where
  | ok (a : α)
  | panic (msg : String)
  deriving DecidableEq, Repr

/-- A Go `map[string]string` that has been made: the entry of every key. -/
abbrev GoMap := String → Option String

/-- `type LogFields map[string]string`; `none` is the nil map. -/
abbrev LogFields := Option GoMap

/-- Assignment `m[k] = v`. -/
def GoMap.insert (m : GoMap) (k v : String) : GoMap :=
  fun x => if x = k then some v else m x

/-- The text before the first `=` and the text after it, if there is one. -/
def cutAtEquals : List Char → Option (List Char × List Char)
  | [] => none
  | c :: cs =>
    if c = '=' then some ([], cs)
    else
      match cutAtEquals cs with
      | some (k, v) => some (c :: k, v)
      | none => none

/-- `strings.SplitN(value, "=", 2)`: the value itself when it has no `=`,
otherwise the part before the first `=` and the rest. -/
def SplitN (value : String) : List String :=
  match cutAtEquals value.data with
  | some (k, v) => [String.mk k, String.mk v]
  | none => [value]

/-- `(*LogFields).Set`.  The message of the error is the format of
`fmt.Errorf` with the value in double quotes (`%q` of a value that needs no
escaping); an assignment to an entry of the nil map panics. -/
def LogFields.Set (l : LogFields) (value : String) : Outcome (LogFields × Option GoError) :=
  match SplitN value with
  | [k, v] =>
    match l with
    | some m => .ok (some (m.insert k v), none)
    | none => .panic "assignment to entry in nil map"
  | _ =>
    .ok (l, some (.other
      ("unexpected log field \"" ++ value ++ "\". Format expected: key=value")))

/-- An `io.Writer` the logging helpers hand out: `ioutil.Discard`, which has
no `Close` method, or an opened `*os.File`, which has one. -/
inductive LogWriter where
  | Discard
  | file (name : String)
  deriving DecidableEq, Repr

/-- The `type logger struct` of `logger.go`; `logrus.Fields` holds strings
here. -/
structure logger where
  out : LogWriter
  defaultFields : GoMap

/-- The package variables of `busltee` and what the helpers act on: `out` of
`log.go` (`none`: the nil interface), `l` of `logger.go` (`none`: the nil
pointer), the outputs set on `log` and on `logrus`, and the files closed so
far. -/
structure Busltee where
  out : Option LogWriter
  l : Option logger
  logOutput : Option LogWriter
  logrusOutput : Option LogWriter
  closed : List String

/-- The package before any of the helpers has been called. -/
def Busltee.unset : Busltee :=
  { out := none, l := none, logOutput := none, logrusOutput := none, closed := [] }

/-- `output(logFile)`, the same in both files; `openable` tells for which
names `os.OpenFile(logFile, os.O_RDWR|os.O_APPEND, 0660)` succeeds. -/
def output (openable : String → Bool) (logFile : String) : LogWriter :=
  if logFile = "" then .Discard
  else if openable logFile then .file logFile
  else .Discard

/-- `OpenLogs` of `log.go`. -/
def OpenLogs (openable : String → Bool) (logFile : String) (b : Busltee) : Busltee :=
  let o := output openable logFile
  { b with out := some o, logOutput := some o }

/-- `CloseLogs` of `log.go`: `if f, ok := out.(io.Closer); ok { f.Close() }`.
The assertion on the nil interface yields `ok = false`. -/
def log_go.CloseLogs (b : Busltee) : Outcome Busltee :=
  match b.out with
  | some (.file name) => .ok { b with closed := b.closed ++ [name] }
  | some .Discard => .ok b
  | none => .ok b

/-- `ConfigureLogs` of `logger.go`; the loop copies every entry of `fields`
(none for the nil map). -/
def ConfigureLogs (openable : String → Bool) (logFile : String) (fields : LogFields)
    (b : Busltee) : Busltee :=
  let lf : GoMap := fun k =>
    match fields with
    | some m => m k
    | none => none
  let lg : logger := { out := output openable logFile, defaultFields := lf }
  { b with l := some lg, logrusOutput := some lg.out }

/-- `CloseLogs` of `logger.go`: `if f, ok := l.out.(io.Closer); ok { f.Close() }`.
Selecting `l.out` through the nil pointer is a run-time panic. -/
def logger_go.CloseLogs (b : Busltee) : Outcome Busltee :=
  match b.l with
  | none => .panic "invalid memory address or nil pointer dereference"
  | some lg =>
    match lg.out with
    | .file name => .ok { b with closed := b.closed ++ [name] }
    | .Discard => .ok b

/-- `logFields`: the fields of the entry `logrus.WithFields(...)` returns. -/
def logFields (b : Busltee) : GoMap :=
  match b.l with
  | none => fun _ => none
  | some lg => lg.defaultFields

/-! ## Shared lemmas -/

theorem length_add_ne_self (c t : String) (ht : 0 < t.length) : c ++ t ≠ c := by
  intro h
  have h2 := congrArg String.length h
  rw [String.length_append] at h2
  omega

theorem append_left_cancel_string (c t u : String) (h : c ++ t = c ++ u) : t = u := by
  have h2 := congrArg String.data h
  simp only [String.data_append] at h2
  exact String.ext (List.append_cancel_left h2)

theorem append_right_cancel_string (c d t : String) (h : c ++ t = d ++ t) : c = d := by
  have h2 := congrArg String.data h
  simp only [String.data_append] at h2
  exact String.ext (List.append_cancel_right h2)

theorem doneID_ne_self (c : String) : channel.doneID c ≠ c :=
  length_add_ne_self c ":done" (by decide)

theorem id_ne_self (c : String) : channel.id c ≠ c :=
  length_add_ne_self c ":id" (by decide)

theorem id_ne_doneID (c : String) : channel.id c ≠ channel.doneID c := by
  intro h
  exact absurd (append_left_cancel_string c _ _ h) (by decide)

theorem roundTrip_nil (s : State) (h : s.faults = []) : s.roundTrip = (s, none) := by
  unfold State.roundTrip
  rw [h]

theorem logOf_set_self (st : Store) (k : String) (e : Entry) : logOf (st.set k e) k = e.value := by
  simp [logOf, Store.set]

theorem logOf_set_ne (st : Store) (k k2 : String) (e : Entry) (h : k2 ≠ k) :
    logOf (st.set k e) k2 = logOf st k2 := by
  simp [logOf, Store.set, h]


theorem NewWriter_open (key : String) (s : State) (hfaults : s.faults = [])
    (hreg : (s.store (channel.id key)).isSome = true)
    (hopen : s.store (channel.doneID key) = none) :
    NewWriter key s = (s, .ok ⟨key⟩) := by
  unfold NewWriter
  rw [roundTrip_nil s hfaults]
  cases hid : s.store (channel.id key) with
  | none => rw [hid] at hreg; simp at hreg
  | some e => simp [hid, hopen]

theorem Len_registered (key : String) (s : State) (hfaults : s.faults = [])
    (hreg : (s.store (channel.id key)).isSome = true) :
    Len ⟨key⟩ s = (s, ((logOf s.store key).length : Int), none) := by
  unfold Len
  rw [roundTrip_nil s hfaults]
  cases hid : s.store (channel.id key) with
  | none => rw [hid] at hreg; simp at hreg
  | some e => simp [hid]

theorem Write_registered (key : String) (p : List Byte) (s : State) (hfaults : s.faults = [])
    (hreg : (s.store (channel.id key)).isSome = true) :
    Writer.Write ⟨key⟩ p s =
      ({ s with store := s.store.set key ⟨logOf s.store key ++ p, some redisChannelExpire⟩ },
        none) := by
  unfold Writer.Write
  rw [roundTrip_nil s hfaults]
  cases hid : s.store (channel.id key) with
  | none => rw [hid] at hreg; simp at hreg
  | some e => simp [hid]

theorem discardStored_le (b : Body) (n : Nat) (h : n ≤ b.data.length) :
    discardStored b n = ({ b with data := b.data.drop n }, none) := by
  unfold discardStored Discard
  by_cases hn : (n : Int) > 0
  · simp [hn, h]
  · have h0 : n = 0 := by omega
    subst h0
    simp

theorem copyBuffers_flatten (fuel : Nat) :
    ∀ data : List Byte, data.length ≤ fuel → (copyBuffers fuel data).flatten = data := by
  induction fuel with
  | zero =>
    intro data h
    have : data = [] := List.length_eq_zero.mp (by omega)
    subst this
    rfl
  | succ fuel ih =>
    intro data h
    unfold copyBuffers
    by_cases hd : data = []
    · simp [hd]
    · have hpos : 0 < data.length := List.length_pos.mpr hd
      have hlen : (data.drop defaultBufSize).length ≤ fuel := by
        simp only [List.length_drop, defaultBufSize]
        omega
      simp only [hd, if_false, List.flatten_cons, ih _ hlen, List.take_append_drop]

theorem writeBuffers_no_fault (key : String) (ps : List (List Byte)) :
    ∀ s : State, s.faults = [] → (s.store (channel.id key)).isSome = true →
      (writeBuffers ⟨key⟩ ps s).2 = none ∧ (writeBuffers ⟨key⟩ ps s).1.faults = [] ∧
        logOf (writeBuffers ⟨key⟩ ps s).1.store key = logOf s.store key ++ ps.flatten := by
  induction ps with
  | nil => intro s hf _; simp [writeBuffers, hf]
  | cons p ps ih =>
    intro s hf hreg
    unfold writeBuffers
    rw [Write_registered key p s hf hreg]
    have h := ih { s with store := s.store.set key ⟨logOf s.store key ++ p, some redisChannelExpire⟩ }
      hf (by simpa [Store.set, id_ne_self key] using hreg)
    refine ⟨h.1, h.2.1, ?_⟩
    rw [h.2.2, logOf_set_self]
    simp

theorem ioCopy_no_fault (key : String) (b : Body) (s : State) (hf : s.faults = [])
    (hreg : (s.store (channel.id key)).isSome = true) :
    (ioCopy ⟨key⟩ b s).2 = (if b.err = some .EOF then none else b.err) ∧
      (ioCopy ⟨key⟩ b s).1.faults = [] ∧
      logOf (ioCopy ⟨key⟩ b s).1.store key = logOf s.store key ++ b.data := by
  have h := writeBuffers_no_fault key (copyBuffers b.data.length b.data) s hf hreg
  rw [copyBuffers_flatten _ _ (Nat.le_refl _)] at h
  unfold ioCopy
  cases hW : writeBuffers ⟨key⟩ (copyBuffers b.data.length b.data) s with
  | mk s1 e =>
    rw [hW] at h
    simp only at h
    rw [h.1]
    exact ⟨rfl, h.2.1, h.2.2⟩

/-- C1: writer resume in `publish`.  For a registered, not yet done stream
whose stored log is `L` and a chunked request whose body `B` arrives whole
and ends cleanly, with `L` an initial segment of `B`: `Len` reports
`n = len(L)`, the discard leaves `B[n:]`, and after the handler the log is
`L ++ B[n:]`, which is `B` byte for byte. -/
theorem publish_resume_log_eq_body
    (handleError : ResponseWriter → Request → GoError → ResponseWriter)
    (w : ResponseWriter) (r : Request) (s : State) (L B : List Byte)
    (hchunked : StringInSlice r.TransferEncoding "chunked" = true)
    (hreg : (s.store (channel.id r.key)).isSome = true)
    (hopen : s.store (channel.doneID r.key) = none)
    (hfaults : s.faults = [])
    (hlog : logOf s.store r.key = L)
    (hbody : r.Body = ⟨B, none⟩)
    (hpre : L <+: B) :
    (Len ⟨r.key⟩ s).2 = ((L.length : Int), none) ∧
    (discardStored r.Body (L.length : Int)).1.data = B.drop L.length ∧
    logOf (publish handleError w r s).2.store r.key = L ++ B.drop L.length ∧
    logOf (publish handleError w r s).2.store r.key = B := by
  obtain ⟨t, rfl⟩ := hpre
  have hdrop : (L ++ t).drop L.length = t := by simp
  have hlen : Len ⟨r.key⟩ s = (s, (L.length : Int), none) := by
    rw [Len_registered r.key s hfaults hreg, hlog]
  have hdisc : discardStored r.Body (L.length : Int) = (⟨t, none⟩, none) := by
    rw [discardStored_le r.Body L.length (by rw [hbody]; simp), hbody]
    simp
  have hfinal : logOf (publish handleError w r s).2.store r.key = L ++ t := by
    unfold publish
    rw [hchunked]
    simp only [Bool.not_true, Bool.false_eq_true, if_false]
    rw [NewWriter_open r.key s hfaults hreg hopen]
    simp only [hlen, hdisc]
    have hc := ioCopy_no_fault r.key ⟨t, none⟩ s hfaults hreg
    cases hC : ioCopy ⟨r.key⟩ ⟨t, none⟩ s with
    | mk s3 e4 =>
      rw [hC] at hc
      simp only [hlog] at hc
      obtain ⟨he, hf3, hl3⟩ := hc
      have he4 : e4 = none := by simpa using he
      subst he4
      simp [Writer.Close, State.roundTrip, hf3, State.emit, logOf_set_ne, hl3,
        (doneID_ne_self r.key).symm]
  exact ⟨by rw [hlen], by rw [hdisc, hdrop], by rw [hdrop]; exact hfinal, hfinal⟩


theorem roundTrip_frame (s : State) :
    s.roundTrip.1.store = s.store ∧ s.roundTrip.1.trace = s.trace ∧ s.roundTrip.1.c = s.c := by
  unfold State.roundTrip
  cases s.faults <;> simp

theorem NewWriter_frame (key : String) (s : State) :
    (NewWriter key s).1.store = s.store ∧ (NewWriter key s).1.trace = s.trace := by
  have h := roundTrip_frame s
  unfold NewWriter
  split
  · rename_i s1 e heq
    rw [heq] at h
    exact ⟨h.1, h.2.1⟩
  · rename_i s1 heq
    rw [heq] at h
    split
    · exact ⟨h.1, h.2.1⟩
    · split <;> exact ⟨h.1, h.2.1⟩

theorem NewWriter_ok_key (key : String) (s s1 : State) (wr : Writer)
    (h : NewWriter key s = (s1, .ok wr)) : wr.key = key := by
  unfold NewWriter at h
  split at h
  · simp at h
  · split at h
    · simp at h
    · split at h
      · simp at h
      · simp only [Prod.mk.injEq, Except.ok.injEq] at h
        rw [← h.2]

theorem Len_frame (wr : Writer) (s : State) :
    (Len wr s).1.store = s.store ∧ (Len wr s).1.trace = s.trace := by
  have h := roundTrip_frame s
  unfold Len
  split
  · rename_i s1 e heq
    rw [heq] at h
    exact ⟨h.1, h.2.1⟩
  · rename_i s1 heq
    rw [heq] at h
    split <;> exact ⟨h.1, h.2.1⟩

theorem Write_frame (wr : Writer) (p : List Byte) (s : State) :
    (wr.Write p s).1.trace = s.trace ∧
      ∀ k, k ≠ wr.key → (wr.Write p s).1.store k = s.store k := by
  have h := roundTrip_frame s
  unfold Writer.Write
  split
  · rename_i s1 e heq
    rw [heq] at h
    exact ⟨h.2.1, fun k _ => by rw [h.1]⟩
  · rename_i s1 heq
    rw [heq] at h
    split
    · exact ⟨h.2.1, fun k _ => by rw [h.1]⟩
    · refine ⟨h.2.1, fun k hk => ?_⟩
      have h1 : s1.store = s.store := h.1
      simp [Store.set, hk, h1]

theorem writeBuffers_frame (wr : Writer) (ps : List (List Byte)) :
    ∀ s : State, (writeBuffers wr ps s).1.trace = s.trace ∧
      ∀ k, k ≠ wr.key → (writeBuffers wr ps s).1.store k = s.store k := by
  induction ps with
  | nil => intro s; exact ⟨rfl, fun _ _ => rfl⟩
  | cons p ps ih =>
    intro s
    have h := Write_frame wr p s
    unfold writeBuffers
    cases hW : wr.Write p s with
    | mk s1 e =>
      rw [hW] at h
      cases e with
      | some e => exact h
      | none =>
        have h2 := ih s1
        exact ⟨by rw [h2.1]; exact h.1, fun k hk => by rw [h2.2 k hk]; exact h.2 k hk⟩

theorem ioCopy_frame (wr : Writer) (b : Body) (s : State) :
    (ioCopy wr b s).1.trace = s.trace ∧
      ∀ k, k ≠ wr.key → (ioCopy wr b s).1.store k = s.store k := by
  have h := writeBuffers_frame wr (copyBuffers b.data.length b.data) s
  unfold ioCopy
  cases hW : writeBuffers wr (copyBuffers b.data.length b.data) s with
  | mk s1 e =>
    rw [hW] at h
    cases e with
    | some e => exact h
    | none => exact h

theorem Close_trace (wr : Writer) (s : State) : (wr.Close s).1.trace = s.trace := by
  have h := roundTrip_frame s
  unfold Writer.Close
  split
  · rename_i s1 e heq
    rw [heq] at h
    exact h.2.1
  · rename_i s1 heq
    rw [heq] at h
    exact h.2.1


theorem drop_length_append_emit (t u : List Effect) : (t ++ u).drop t.length = u := by
  simp

theorem publish_clean_effects
    (handleError : ResponseWriter → Request → GoError → ResponseWriter)
    (w : ResponseWriter) (r : Request) (s : State) (h : publishesCleanly r s = true) :
    publishEffects handleError w r s =
      [.writerClose r.key, .goStoreOutput r.key r.requestURI, .bodyClose] := by
  unfold publishesCleanly at h
  unfold publishEffects publish
  cases hch : StringInSlice r.TransferEncoding "chunked" with
  | false => simp [hch] at h
  | true =>
    simp only [hch, Bool.true_and] at h
    simp only [Bool.not_true, Bool.false_eq_true, if_false]
    have hNf := NewWriter_frame r.key s
    cases hN : NewWriter r.key s with
    | mk s1 res =>
      rw [hN] at h hNf
      cases res with
      | error e => simp at h
      | ok wr =>
        have hk := NewWriter_ok_key r.key s s1 wr hN
        simp only at h ⊢
        have hLf := Len_frame wr s1
        cases hL : Len wr s1 with
        | mk s2 res2 =>
          obtain ⟨wl, e2⟩ := res2
          rw [hL] at h hLf
          cases e2 with
          | some e => simp at h
          | none =>
            simp only at h ⊢
            cases hD : discardStored r.Body wl with
            | mk body e3 =>
              rw [hD] at h
              cases e3 with
              | some e => simp at h
              | none =>
                simp only at h ⊢
                have hCf := ioCopy_frame wr body s2
                cases hC : ioCopy wr body s2 with
                | mk s3 e4 =>
                  rw [hC] at h hCf
                  cases e4 with
                  | some e => simp at h
                  | none =>
                    simp only [State.emit, Close_trace, hk]
                    have e1 : s3.trace = s.trace := by
                      rw [hCf.1, hLf.2, hNf.2]
                    rw [e1]
                    simp


theorem publish_unclean_effects
    (handleError : ResponseWriter → Request → GoError → ResponseWriter)
    (w : ResponseWriter) (r : Request) (s : State) (h : publishesCleanly r s = false) :
    closesAndUploads (publishEffects handleError w r s) = [] ∧
      (publish handleError w r s).2.store (channel.doneID r.key) =
        s.store (channel.doneID r.key) := by
  unfold publishesCleanly at h
  unfold publishEffects publish
  cases hch : StringInSlice r.TransferEncoding "chunked" with
  | false => simp [closesAndUploads]
  | true =>
    simp only [hch, Bool.true_and] at h
    simp only [Bool.not_true, Bool.false_eq_true, if_false]
    have hNf := NewWriter_frame r.key s
    cases hN : NewWriter r.key s with
    | mk s1 res =>
      rw [hN] at h hNf
      cases res with
      | error e =>
        have e1 : s1.trace = s.trace := hNf.2
        have e1s : s1.store = s.store := hNf.1
        simp [closesAndUploads, e1, e1s]
      | ok wr =>
        have hk := NewWriter_ok_key r.key s s1 wr hN
        simp only at h ⊢
        have hLf := Len_frame wr s1
        have e1 : s1.trace = s.trace := hNf.2
        have e1s : s1.store = s.store := hNf.1
        cases hL : Len wr s1 with
        | mk s2 res2 =>
          obtain ⟨wl, e2⟩ := res2
          rw [hL] at h hLf
          have e2t : s2.trace = s.trace := by rw [hLf.2, e1]
          have e2s : s2.store = s.store := by rw [hLf.1, e1s]
          cases e2 with
          | some e => simp [closesAndUploads, State.emit, e2t, e2s]
          | none =>
            simp only at h ⊢
            cases hD : discardStored r.Body wl with
            | mk body e3 =>
              rw [hD] at h
              cases e3 with
              | some e => simp [closesAndUploads, State.emit, e2t, e2s]
              | none =>
                simp only at h ⊢
                have hCf := ioCopy_frame wr body s2
                cases hC : ioCopy wr body s2 with
                | mk s3 e4 =>
                  rw [hC] at h hCf
                  have e3t : s3.trace = s.trace := by rw [hCf.1, e2t]
                  have e3s : s3.store (channel.doneID r.key) = s.store (channel.doneID r.key) := by
                    rw [hCf.2 _ (by rw [hk]; exact doneID_ne_self r.key), e2s]
                  cases e4 with
                  | none => simp at h
                  | some e =>
                    cases e with
                    | netError timeout msg =>
                      cases timeout <;> simp [closesAndUploads, State.emit, e3t, e3s]
                    | _ => simp [closesAndUploads, State.emit, e3t, e3s]


theorem publish_clean_sets_done
    (handleError : ResponseWriter → Request → GoError → ResponseWriter)
    (w : ResponseWriter) (r : Request) (s : State) (h : publishesCleanly r s = true)
    (hf : s.faults = []) :
    ((publish handleError w r s).2.store (channel.doneID r.key)).isSome = true := by
  unfold publishesCleanly at h
  unfold publish
  cases hch : StringInSlice r.TransferEncoding "chunked" with
  | false => simp [hch] at h
  | true =>
    simp only [hch, Bool.true_and] at h
    simp only [Bool.not_true, Bool.false_eq_true, if_false]
    have hNW : NewWriter r.key s = (s, .ok ⟨r.key⟩) ∧
        (s.store (channel.id r.key)).isSome = true := by
      cases hid : s.store (channel.id r.key) with
      | none =>
        have : NewWriter r.key s = (s, .error .ErrNotRegistered) := by
          unfold NewWriter
          rw [roundTrip_nil s hf]
          simp [hid]
        rw [this] at h
        simp at h
      | some e0 =>
        cases hdone : s.store (channel.doneID r.key) with
        | some e1 =>
          have : NewWriter r.key s = (s, .error .ErrAlreadyDone) := by
            unfold NewWriter
            rw [roundTrip_nil s hf]
            simp [hid, hdone]
          rw [this] at h
          simp at h
        | none =>
          exact ⟨NewWriter_open r.key s hf (by simp [hid]) hdone, rfl⟩
    rw [hNW.1] at h ⊢
    simp only at h ⊢
    rw [Len_registered r.key s hf hNW.2] at h ⊢
    simp only at h ⊢
    cases hD : discardStored r.Body ((logOf s.store r.key).length : Int) with
    | mk body e3 =>
      rw [hD] at h
      cases e3 with
      | some e => simp at h
      | none =>
        simp only at h ⊢
        cases hC : ioCopy ⟨r.key⟩ body s with
        | mk s3 e4 =>
          rw [hC] at h
          cases e4 with
          | some e => simp at h
          | none =>
            have hf3 : s3.faults = [] := by
              have hc := (ioCopy_no_fault r.key body s hf hNW.2).2.1
              rw [hC] at hc
              exact hc
            simp [Writer.Close, State.emit, State.roundTrip, hf3, Store.set]

/-! ## The publish handler -/

theorem publish_resume_log_eq_body_witness :
    logOf (publish notFoundHandler .fresh
        ⟨["chunked"], "x", "/streams/x", ⟨bytes "hello world", none⟩⟩
        (registeredWith "x" (bytes "hello"))).2.store "x" = bytes "hello world" :=
  (publish_resume_log_eq_body notFoundHandler .fresh
    ⟨["chunked"], "x", "/streams/x", ⟨bytes "hello world", none⟩⟩
    (registeredWith "x" (bytes "hello")) (bytes "hello") (bytes "hello world")
    (by decide) (by decide) (by decide) (by decide) (by decide) (by decide)
    ⟨bytes " world", by decide⟩).2.2.2

theorem publish_of_not_chunked
    (handleError : ResponseWriter → Request → GoError → ResponseWriter)
    (w : ResponseWriter) (r : Request) (s : State)
    (h : StringInSlice r.TransferEncoding "chunked" = false) :
    publish handleError w r s =
      (httpError w "A chunked Transfer-Encoding header is required." 400, s) := by
  unfold publish
  simp [h]

theorem httpError_fresh_400 :
    httpError .fresh "A chunked Transfer-Encoding header is required." 400 =
      ⟨some 400, bytes "A chunked Transfer-Encoding header is required.\n"⟩ := by
  decide

/-- C2: a request whose `TransferEncoding` does not contain `"chunked"` gets
status 400 with the fixed message and the handler returns at once: the state
is returned as it was (no round trip to Redis, nothing appended, no `:done`
marker) and no effect is performed (no close, no upload), whatever the state
of the stream. -/
theorem publish_not_chunked_bad_request
    (handleError : ResponseWriter → Request → GoError → ResponseWriter)
    (w : ResponseWriter) (r : Request) (s : State)
    (h : "chunked" ∉ r.TransferEncoding) :
    publish handleError w r s =
        (httpError w "A chunked Transfer-Encoding header is required." 400, s) ∧
      (publish handleError .fresh r s).1 =
        ⟨some 400, bytes "A chunked Transfer-Encoding header is required.\n"⟩ ∧
      publishEffects handleError w r s = [] := by
  have hch : StringInSlice r.TransferEncoding "chunked" = false := by
    simp [StringInSlice, h]
  refine ⟨publish_of_not_chunked handleError w r s hch, ?_, ?_⟩
  · rw [publish_of_not_chunked handleError .fresh r s hch]
    exact httpError_fresh_400
  · unfold publishEffects
    rw [publish_of_not_chunked handleError w r s hch]
    simp

theorem publish_not_chunked_bad_request_witness :
    (publish notFoundHandler .fresh ⟨["gzip"], "x", "/streams/x", ⟨bytes "hello", none⟩⟩
        (registeredWith "x" [])).1.status = some 400 :=
  congrArg ResponseWriter.status
    (publish_not_chunked_bad_request notFoundHandler .fresh
      ⟨["gzip"], "x", "/streams/x", ⟨bytes "hello", none⟩⟩ (registeredWith "x" [])
      (by decide)).2.1

/-- C3: the run of `TestPubWithoutTransferEncoding`.  On a registered stream,
a request with an empty `TransferEncoding` and the body `"hello world"` is
answered by `publish` with status 400, and the log of the stream stays
empty. -/
theorem publish_fixed_length_body_rejected :
    ∀ handleError : ResponseWriter → Request → GoError → ResponseWriter,
      (publish handleError .fresh ⟨[], "x", "/streams/x", ⟨bytes "hello world", none⟩⟩
          (registeredWith "x" [])).1.status = some 400 ∧
        logOf (publish handleError .fresh ⟨[], "x", "/streams/x", ⟨bytes "hello world", none⟩⟩
          (registeredWith "x" [])).2.store "x" = [] := by
  intro handleError
  rw [publish_of_not_chunked handleError .fresh _ _ (by decide)]
  exact ⟨by decide, by decide⟩

/-- C4: `publish` closes the writer and starts the upload exactly when the
request is chunked, `NewWriter`, `Len` and the discard succeed and the copy
returns no error.  In that case the closes and uploads of the call are one
`writer.Close()` followed by one `go storeOutput(...)`, and the `:done` marker
is set when the round trip of the close succeeds; on every other path there is
neither, and the `:done` key of the stream is as before. -/
theorem publish_close_and_upload_iff_clean
    (handleError : ResponseWriter → Request → GoError → ResponseWriter)
    (w : ResponseWriter) (r : Request) (s : State) :
    (Effect.writerClose r.key ∈ publishEffects handleError w r s ↔
        publishesCleanly r s = true) ∧
      (Effect.goStoreOutput r.key r.requestURI ∈ publishEffects handleError w r s ↔
        publishesCleanly r s = true) ∧
      (publishesCleanly r s = true →
        closesAndUploads (publishEffects handleError w r s) =
          [.writerClose r.key, .goStoreOutput r.key r.requestURI]) ∧
      (publishesCleanly r s = true → s.faults = [] →
        ((publish handleError w r s).2.store (channel.doneID r.key)).isSome = true) ∧
      (publishesCleanly r s = false →
        closesAndUploads (publishEffects handleError w r s) = [] ∧
          (publish handleError w r s).2.store (channel.doneID r.key) =
            s.store (channel.doneID r.key)) := by
  have hmem : ∀ e, (e = Effect.writerClose r.key ∨ e = Effect.goStoreOutput r.key r.requestURI) →
      publishesCleanly r s = false → e ∉ publishEffects handleError w r s := by
    intro e he hc hin
    have h0 := (publish_unclean_effects handleError w r s hc).1
    have h1 : e ∈ closesAndUploads (publishEffects handleError w r s) := by
      unfold closesAndUploads
      rw [List.mem_filter]
      refine ⟨hin, ?_⟩
      rcases he with rfl | rfl <;> rfl
    rw [h0] at h1
    simp at h1
  refine ⟨⟨fun hin => ?_, fun hc => ?_⟩, ⟨fun hin => ?_, fun hc => ?_⟩, fun hc => ?_,
    publish_clean_sets_done handleError w r s, publish_unclean_effects handleError w r s⟩
  · cases hc : publishesCleanly r s with
    | true => rfl
    | false => exact absurd hin (hmem _ (Or.inl rfl) hc)
  · rw [publish_clean_effects handleError w r s hc]
    simp
  · cases hc : publishesCleanly r s with
    | true => rfl
    | false => exact absurd hin (hmem _ (Or.inr rfl) hc)
  · rw [publish_clean_effects handleError w r s hc]
    simp
  · rw [publish_clean_effects handleError w r s hc]
    simp [closesAndUploads]

theorem publish_close_and_upload_iff_clean_witness :
    closesAndUploads (publishEffects notFoundHandler .fresh
        ⟨["chunked"], "x", "/streams/x", ⟨bytes "hello world", none⟩⟩ (registeredWith "x" [])) =
      [.writerClose "x", .goStoreOutput "x" "/streams/x"] :=
  (publish_close_and_upload_iff_clean notFoundHandler .fresh
    ⟨["chunked"], "x", "/streams/x", ⟨bytes "hello world", none⟩⟩
    (registeredWith "x" [])).2.2.1 (by decide)

/-- C5: when the copy of the body returns `io.ErrUnexpectedEOF`, `publish`
returns the response writer untouched (no status, no body), its only effects
are the `server.pub.read.eoferror` count and the deferred close of the body
(no `handleError`, no 500, no close of the writer, no upload), and the `:done`
key of the stream is as before. -/
theorem publish_unexpected_eof_is_hangup
    (handleError : ResponseWriter → Request → GoError → ResponseWriter)
    (w : ResponseWriter) (r : Request) (s s1 s2 s3 : State) (writer : Writer) (wl : Int)
    (body : Body)
    (hchunked : StringInSlice r.TransferEncoding "chunked" = true)
    (hwriter : NewWriter r.key s = (s1, .ok writer))
    (hlen : Len writer s1 = (s2, wl, none))
    (hdiscard : discardStored r.Body wl = (body, none))
    (hcopy : ioCopy writer body s2 = (s3, some .ErrUnexpectedEOF)) :
    publish handleError w r s =
        (w, (s3.emit (.count "server.pub.read.eoferror" 1 (some .ErrUnexpectedEOF))).emit
          .bodyClose) ∧
      publishEffects handleError w r s =
        [.count "server.pub.read.eoferror" 1 (some .ErrUnexpectedEOF), .bodyClose] ∧
      (publish handleError w r s).2.store (channel.doneID r.key) =
        s.store (channel.doneID r.key) := by
  have hp : publish handleError w r s =
      (w, (s3.emit (.count "server.pub.read.eoferror" 1 (some .ErrUnexpectedEOF))).emit
        .bodyClose) := by
    unfold publish
    simp [hchunked, hwriter, hlen, hdiscard, hcopy]
  have hclean : publishesCleanly r s = false := by
    unfold publishesCleanly
    simp [hchunked, hwriter, hlen, hdiscard, hcopy]
  have ht : s3.trace = s.trace := by
    have h1 := (ioCopy_frame writer body s2).1
    have h2 := (Len_frame writer s1).2
    have h3 := (NewWriter_frame r.key s).2
    rw [hcopy] at h1
    rw [hlen] at h2
    rw [hwriter] at h3
    simp only at h1 h2 h3
    rw [h1, h2, h3]
  refine ⟨hp, ?_, (publish_unclean_effects handleError w r s hclean).2⟩
  unfold publishEffects
  rw [hp]
  simp [State.emit, ht]


theorem publish_unexpected_eof_is_hangup_witness :
    (publish notFoundHandler .fresh
        ⟨["chunked"], "x", "/streams/x", ⟨bytes "he", some .ErrUnexpectedEOF⟩⟩
        (registeredWith "x" [])).1 = ResponseWriter.fresh :=
  congrArg Prod.fst
    (publish_unexpected_eof_is_hangup notFoundHandler .fresh
      ⟨["chunked"], "x", "/streams/x", ⟨bytes "he", some .ErrUnexpectedEOF⟩⟩
      (registeredWith "x" []) (registeredWith "x" []) (registeredWith "x" [])
      (ioCopy ⟨"x"⟩ ⟨bytes "he", some .ErrUnexpectedEOF⟩ (registeredWith "x" [])).1
      ⟨"x"⟩ 0 ⟨bytes "he", some .ErrUnexpectedEOF⟩
      (by decide) (by rfl) (by rfl) (by rfl) (by rfl)).1

/-! ## The registrar and the channel keys -/

theorem redisChannelExpire_eq : redisChannelExpire = 3600 := by decide

theorem Register_store (c : String) (s : State) :
    (RedisRegistrar.Register c s).1.store =
      if s.roundTrip.2 = none then s.store.set (channel.id c) ⟨[], some 3600⟩ else s.store := by
  unfold RedisRegistrar.Register Conn.Do pool.Get Conn.Close State.emit State.roundTrip
  rcases hf : s.faults with _ | ⟨f, rest⟩
  · simp [Cmd.exec, redisChannelExpire_eq]
  · cases f with
    | none => simp [Cmd.exec, redisChannelExpire_eq]
    | some e => simp

theorem Register_err (c : String) (s : State) :
    (RedisRegistrar.Register c s).2 = s.roundTrip.2 := by
  unfold RedisRegistrar.Register Conn.Do pool.Get Conn.Close State.emit State.roundTrip
  rcases hf : s.faults with _ | ⟨f, rest⟩
  · simp [Cmd.exec, redisChannelExpire_eq]
  · cases f with
    | none => simp [Cmd.exec, redisChannelExpire_eq]
    | some e => simp

theorem IsRegistered_result (c : String) (s : State) :
    (RedisRegistrar.IsRegistered c s).2 =
      match s.roundTrip.2 with
      | none => ((s.store (channel.id c)).isSome, none)
      | some e => (false, some e) := by
  unfold RedisRegistrar.IsRegistered Conn.Do pool.Get Conn.Close State.emit State.roundTrip
  rcases hf : s.faults with _ | ⟨f, rest⟩
  · cases h : s.store (channel.id c) <;> simp [Cmd.exec, redisBool, h]
  · cases f with
    | none => cases h : s.store (channel.id c) <;> simp [Cmd.exec, redisBool, h]
    | some e => simp [redisBool]

theorem IsRegistered_store (c : String) (s : State) :
    (RedisRegistrar.IsRegistered c s).1.store = s.store := by
  unfold RedisRegistrar.IsRegistered Conn.Do pool.Get Conn.Close State.emit State.roundTrip
  rcases hf : s.faults with _ | ⟨f, rest⟩
  · simp [Cmd.exec, redisBool]
  · cases f with
    | none => simp [Cmd.exec, redisBool]
    | some e => simp [redisBool]


theorem Store.set_set (st : Store) (k : String) (e : Entry) : (st.set k e).set k e = st.set k e := by
  funext k2
  unfold Store.set
  split <;> rfl

/-- C6: `IsRegistered(c)` asks for the key `c ++ ":id"`: when the round trip
succeeds it returns whether that key exists and a `nil` error, when it fails
it returns `false` and that error, and the key space is not changed; after a
`Register(c)` that returned `nil`, `IsRegistered(c)` (its round trip
succeeding) returns `(true, nil)`. -/
theorem IsRegistered_iff_id_key_exists (c : String) (s : State) :
    channel.id c = c ++ ":id" ∧
      (s.roundTrip.2 = none →
        (RedisRegistrar.IsRegistered c s).2 = ((s.store (channel.id c)).isSome, none)) ∧
      (∀ e, s.roundTrip.2 = some e →
        (RedisRegistrar.IsRegistered c s).2 = (false, some e)) ∧
      (RedisRegistrar.IsRegistered c s).1.store = s.store ∧
      (∀ s1, RedisRegistrar.Register c s = (s1, none) → s1.roundTrip.2 = none →
        (RedisRegistrar.IsRegistered c s1).2 = (true, none)) := by
  refine ⟨rfl, fun h => ?_, fun e h => ?_, IsRegistered_store c s, fun s1 hreg h1 => ?_⟩
  · rw [IsRegistered_result, h]
  · rw [IsRegistered_result, h]
  · have herr : s.roundTrip.2 = none := by
      rw [← Register_err c s, hreg]
    have hst : s1.store = s.store.set (channel.id c) ⟨[], some 3600⟩ := by
      have h2 := Register_store c s
      rw [hreg] at h2
      simpa [herr] using h2
    rw [IsRegistered_result, h1, hst]
    simp [Store.set]

theorem IsRegistered_iff_id_key_exists_witness :
    (RedisRegistrar.IsRegistered "1/2/3"
      (RedisRegistrar.Register "1/2/3" (State.init Store.empty)).1).2 = (true, none) :=
  (IsRegistered_iff_id_key_exists "1/2/3" (State.init Store.empty)).2.2.2.2
    (RedisRegistrar.Register "1/2/3" (State.init Store.empty)).1 (by rfl) (by rfl)

/-- C7: `redisChannelExpire` is `60 * 60 = 3600`; a `Register(c)` whose round
trip succeeds returns `nil` and sets `c ++ ":id"` to the empty value with that
TTL; every other key keeps its value and TTL, whatever the outcome; and a
second successful `Register(c)` leaves the key space of the first. -/
theorem Register_sets_only_id_key (c : String) (s : State) :
    redisChannelExpire = 60 * 60 ∧ redisChannelExpire = 3600 ∧
      (s.roundTrip.2 = none →
        (RedisRegistrar.Register c s).2 = none ∧
          (RedisRegistrar.Register c s).1.store (channel.id c) =
            some ⟨[], some redisChannelExpire⟩) ∧
      (∀ k, k ≠ channel.id c → (RedisRegistrar.Register c s).1.store k = s.store k) ∧
      (s.roundTrip.2 = none → (RedisRegistrar.Register c s).1.roundTrip.2 = none →
        (RedisRegistrar.Register c (RedisRegistrar.Register c s).1).1.store =
          (RedisRegistrar.Register c s).1.store) := by
  refine ⟨by decide, by decide, fun h => ⟨?_, ?_⟩, fun k hk => ?_, fun h h2 => ?_⟩
  · rw [Register_err, h]
  · rw [Register_store, redisChannelExpire_eq]
    simp [h, Store.set]
  · rw [Register_store]
    split
    · simp [Store.set, hk]
    · rfl
  · rw [Register_store c (RedisRegistrar.Register c s).1, Register_store c s]
    simp [h, h2, Store.set_set]

theorem Register_sets_only_id_key_witness :
    (RedisRegistrar.Register "a" (RedisRegistrar.Register "a" (State.init Store.empty)).1).1.store =
      (RedisRegistrar.Register "a" (State.init Store.empty)).1.store :=
  (Register_sets_only_id_key "a" (State.init Store.empty)).2.2.2.2 (by rfl) (by rfl)

/-- C8: the keys of a stream are the name followed by `":id"`, `":done"`,
`":kill"` (and `":*"`); the bare name and these three keys are pairwise
distinct, and each derivation is injective. -/
theorem channel_keys_by_suffix :
    (∀ c : channel, channel.id c = c ++ ":id" ∧ channel.doneID c = c ++ ":done" ∧
        channel.killID c = c ++ ":kill" ∧ channel.wildcardID c = c ++ ":*") ∧
      (∀ c : channel, c ≠ channel.id c ∧ c ≠ channel.doneID c ∧ c ≠ channel.killID c ∧
        channel.id c ≠ channel.doneID c ∧ channel.id c ≠ channel.killID c ∧
        channel.doneID c ≠ channel.killID c) ∧
      Function.Injective channel.id ∧ Function.Injective channel.doneID ∧
      Function.Injective channel.killID ∧ Function.Injective channel.wildcardID := by
  refine ⟨fun c => ⟨rfl, rfl, rfl, rfl⟩, fun c => ⟨?_, ?_, ?_, ?_, ?_, ?_⟩, ?_, ?_, ?_, ?_⟩
  · exact (length_add_ne_self c ":id" (by decide)).symm
  · exact (length_add_ne_self c ":done" (by decide)).symm
  · exact (length_add_ne_self c ":kill" (by decide)).symm
  · exact fun h => absurd (append_left_cancel_string c _ _ h) (by decide)
  · exact fun h => absurd (append_left_cancel_string c _ _ h) (by decide)
  · exact fun h => absurd (append_left_cancel_string c _ _ h) (by decide)
  · exact fun a b h => append_right_cancel_string a b ":id" h
  · exact fun a b h => append_right_cancel_string a b ":done" h
  · exact fun a b h => append_right_cancel_string a b ":kill" h
  · exact fun a b h => append_right_cancel_string a b ":*" h


/-! ## The encoders -/

theorem textEncoder_Seek_not_seekable (r : textEncoder) (offset : Int)
    (h : r.ReadCloser.seekable = false) :
    r.Seek offset SeekStart =
      ({ r with offset := wrap64 (r.offset + offset) }, wrap64 (r.offset + offset), none) := by
  unfold textEncoder.Seek
  simp [h]

/-- C9: on a text encoder over a reader that is not seekable, `Seek(5,
io.SeekStart)` followed by `Seek(3, io.SeekStart)` returns `(8, nil)` and
leaves the logical offset at 8: the second call adds to the offset of the
first. -/
theorem textEncoder_Seek_start_adds_to_offset :
    (((NewTextEncoder { seekable := false, data := bytes "hello world", pos := 0, reads := [] }).Seek
        5 SeekStart).1.Seek 3 SeekStart).2 = (8, none) ∧
      (((NewTextEncoder { seekable := false, data := bytes "hello world", pos := 0, reads := [] }).Seek
        5 SeekStart).1.Seek 3 SeekStart).1.offset = 8 := by
  decide

theorem splitNewline_ne_nil (s : List Byte) : splitNewline s ≠ [] := by
  cases s with
  | nil => simp [splitNewline]
  | cons b bs =>
    unfold splitNewline
    split
    · simp
    · split <;> simp

theorem splitNewline_append_newline (s : List Byte) :
    splitNewline (s ++ [10]) = splitNewline s ++ [[]] := by
  induction s with
  | nil => simp [splitNewline]
  | cons b bs ih =>
    rw [List.cons_append]
    unfold splitNewline
    rw [ih]
    by_cases hb : b = 10
    · simp [hb]
    · simp only [hb, if_false]
      cases hs : splitNewline bs with
      | nil => exact absurd hs (splitNewline_ne_nil bs)
      | cons l ls => simp

theorem sseOutput_single_read (k : Nat) (s : List Byte) :
    sseOutput (readSeekerCloser s) k = sseSingleEvent k s := by
  have hk : ¬ ((k : Int) < 0) := by omega
  unfold sseOutput sseSingleEvent sseEncoder.readAll sseEncoder.Seek textEncoder.Seek
    NewSSEEncoder readSeekerCloser Reader.Seek Reader.chunks
  simp only [SeekStart, if_true, hk, if_false, Int.toNat_ofNat, Reader.chunksFrom]
  by_cases hlen : s.length ≤ k
  · simp [hlen, sseFrames]
  · have hne : s.drop k ≠ [] := by
      intro h
      rw [List.drop_eq_nil_iff] at h
      exact hlen h
    have hsum : (k : Int) + ((s.length - k : Nat) : Int) = (s.length : Int) := by omega
    simp [hlen, hne, sseFrames, sseFormat, hsum]

/-- C10 as stated fails: it is not the case that for every offset, input and
way the reader hands out its bytes the output is the single event with
`id: <len(s)>`.  Over `"ab"` read in chunks of one byte the encoder emits two
events. -/
theorem sse_reads_in_two_chunks_two_events :
    ¬ ∀ (k : Nat) (s : List Byte) (reads : List Nat),
        sseOutput { seekable := true, data := s, pos := 0, reads := reads } k =
          sseSingleEvent k s := by
  intro h
  exact absurd (h 0 (bytes "ab") [1]) (by decide)

/-- C10 amended: when the reader hands out the rest of its input in one read,
an SSE encoder over `s` seeked to `k` outputs nothing for `k >= len(s)` and
otherwise `id: <len(s)>`, one `data:` line for each run of `s[k:]` between
newlines (a trailing newline giving a last empty `data: ` line) and an empty
line; each of the eight rows of the reference table holds. -/
theorem sse_framing_single_read :
    (∀ (k : Nat) (s : List Byte), sseOutput (readSeekerCloser s) k = sseSingleEvent k s) ∧
      (∀ s : List Byte, splitNewline (s ++ bytes "\n") = splitNewline s ++ [[]]) ∧
      sseOutput (readSeekerCloser (bytes "hello")) 0 = bytes "id: 5\ndata: hello\n\n" ∧
      sseOutput (readSeekerCloser (bytes "hello\n")) 0 =
        bytes "id: 6\ndata: hello\ndata: \n\n" ∧
      sseOutput (readSeekerCloser (bytes "hello\nworld")) 0 =
        bytes "id: 11\ndata: hello\ndata: world\n\n" ∧
      sseOutput (readSeekerCloser (bytes "hello\nworld\n")) 0 =
        bytes "id: 12\ndata: hello\ndata: world\ndata: \n\n" ∧
      sseOutput (readSeekerCloser (bytes "hello\nworld\n")) 1 =
        bytes "id: 12\ndata: ello\ndata: world\ndata: \n\n" ∧
      sseOutput (readSeekerCloser (bytes "hello\nworld\n")) 6 =
        bytes "id: 12\ndata: world\ndata: \n\n" ∧
      sseOutput (readSeekerCloser (bytes "hello\nworld\n")) 11 =
        bytes "id: 12\ndata: \ndata: \n\n" ∧
      sseOutput (readSeekerCloser (bytes "hello\nworld\n")) 12 = [] := by
  refine ⟨sseOutput_single_read, splitNewline_append_newline, ?_, ?_, ?_, ?_, ?_, ?_, ?_, ?_⟩ <;>
    decide


/-! ## `LogFields.Set` -/

theorem cutAtEquals_of_not_mem (cs : List Char) (h : '=' ∉ cs) : cutAtEquals cs = none := by
  induction cs with
  | nil => rfl
  | cons c cs ih =>
    have hc : c ≠ '=' := fun e => h (by simp [e])
    have hcs : '=' ∉ cs := fun e => h (by simp [e])
    simp [cutAtEquals, hc, ih hcs]

theorem cutAtEquals_append (k v : List Char) (h : '=' ∉ k) :
    cutAtEquals (k ++ '=' :: v) = some (k, v) := by
  induction k with
  | nil => simp [cutAtEquals]
  | cons c cs ih =>
    have hc : c ≠ '=' := fun e => h (by simp [e])
    have hcs : '=' ∉ cs := fun e => h (by simp [e])
    simp [cutAtEquals, hc, ih hcs]

theorem cutAtEquals_of_mem (cs : List Char) (h : '=' ∈ cs) :
    ∃ k v, '=' ∉ k ∧ cs = k ++ '=' :: v := by
  induction cs with
  | nil => simp at h
  | cons c cs ih =>
    by_cases hc : c = '='
    · exact ⟨[], cs, by simp, by simp [hc]⟩
    · have hcs : '=' ∈ cs := by
        rcases List.mem_cons.mp h with e | e
        · exact absurd e.symm hc
        · exact e
      obtain ⟨k, v, hk, hv⟩ := ih hcs
      refine ⟨c :: k, v, ?_, by simp [hv]⟩
      intro hm
      rcases List.mem_cons.mp hm with e | e
      · exact hc e.symm
      · exact hk e

theorem data_key_equals_value (k v : String) : (k ++ "=" ++ v).data = k.data ++ '=' :: v.data := by
  simp [String.data_append]

/-- C11: `LogFields.Set` on a made map `m`.  A value without `=` gives an
error and leaves `m` as it was.  A value `k=v`, `k` without `=`, gives `nil`
and the map in which `k` holds `v` and every other key holds what it held;
every value with an `=` is of that form, with `k` or `v` possibly empty and
`v` possibly holding further `=`. -/
theorem LogFields_Set_key_value (m : GoMap) :
    (∀ value : String, '=' ∉ value.data →
        ∃ e, LogFields.Set (some m) value = .ok (some m, some e)) ∧
      (∀ k v : String, '=' ∉ k.data →
        LogFields.Set (some m) (k ++ "=" ++ v) = .ok (some (m.insert k v), none) ∧
          (m.insert k v) k = some v ∧ ∀ x, x ≠ k → (m.insert k v) x = m x) ∧
      (∀ value : String, '=' ∈ value.data →
        ∃ k v : String, '=' ∉ k.data ∧ value = k ++ "=" ++ v) := by
  refine ⟨fun value h => ?_, fun k v h => ⟨?_, ?_, fun x hx => ?_⟩, fun value h => ?_⟩
  · refine ⟨.other ("unexpected log field \"" ++ value ++ "\". Format expected: key=value"), ?_⟩
    unfold LogFields.Set SplitN
    rw [cutAtEquals_of_not_mem _ h]
  · unfold LogFields.Set SplitN
    rw [data_key_equals_value, cutAtEquals_append _ _ h]
  · simp [GoMap.insert]
  · simp [GoMap.insert, hx]
  · obtain ⟨k, v, hk, hv⟩ := cutAtEquals_of_mem _ h
    refine ⟨String.mk k, String.mk v, hk, ?_⟩
    apply String.ext
    rw [data_key_equals_value]
    exact hv

theorem LogFields_Set_key_value_witness :
    LogFields.Set (some (fun _ => none)) ("app" ++ "=" ++ "a=b") =
      .ok (some (GoMap.insert (fun _ => none) "app" "a=b"), none) :=
  ((LogFields_Set_key_value (fun _ => none)).2.1 "app" "a=b" (by decide)).1


/-! ## The pool counter -/

theorem wrap64_of_range (x : Int) (h0 : 0 ≤ x) (h1 : x < 2 ^ 63) : wrap64 x = x := by
  unfold wrap64
  have e63 : (2 : Int) ^ 63 = 9223372036854775808 := by norm_num
  have e64 : (2 : Int) ^ 64 = 18446744073709551616 := by norm_num
  rw [e63] at h1 ⊢
  rw [e64]
  omega

theorem poolRun_invariant (ops : List PoolOp) :
    ∀ (t : Nat × List Nat) (s : State), poolWellFormed t ops = true →
      s.c = (t.2.length : Int) → ((t.2.length + ops.length : Nat) : Int) < 2 ^ 63 →
      (poolRun s ops).c = ((poolOpen t ops).length : Int) ∧
        (poolRun s ops).trace = s.trace ++ poolReports t ops := by
  induction ops with
  | nil =>
    intro t s _ hc _
    simp [poolRun, poolOpen, poolReports, hc]
  | cons op ops ih =>
    intro t s hwf hc hlen
    cases op with
    | get =>
      have hw : wrap64 (s.c + 1) = ((t.2.length + 1 : Nat) : Int) := by
        rw [wrap64_of_range _ (by omega) (by simp only [List.length_cons] at hlen; omega), hc]
        push_cast
        rfl
      have hstep := ih (poolTrack t .get) (pool.Get s) (by simpa [poolWellFormed] using hwf)
        (by simp [pool.Get, State.emit, poolTrack, hw])
        (by simp only [poolTrack, List.length_cons] at hlen ⊢; omega)
      refine ⟨hstep.1, ?_⟩
      have ht := hstep.2
      simp only [poolRun, List.foldl_cons, poolStep] at ht ⊢
      rw [ht]
      simp [pool.Get, State.emit, poolReports, poolTrack, hw]
    | close conn =>
      simp only [poolWellFormed, Bool.and_eq_true, decide_eq_true_eq] at hwf
      have hmem : conn ∈ t.2 := hwf.1
      have hpos : 0 < t.2.length := List.length_pos_of_mem hmem
      have hlen2 : (t.2.erase conn).length = t.2.length - 1 := List.length_erase_of_mem hmem
      have hw : wrap64 (s.c + -1) = (((t.2.erase conn).length : Nat) : Int) := by
        rw [wrap64_of_range _ (by omega) (by simp only [List.length_cons] at hlen; omega), hc,
          hlen2]
        omega
      have hstep := ih (poolTrack t (.close conn)) (Conn.Close s) hwf.2
        (by simp [Conn.Close, State.emit, poolTrack, hw])
        (by simp only [poolTrack, List.length_cons] at hlen ⊢; omega)
      refine ⟨hstep.1, ?_⟩
      have ht := hstep.2
      simp only [poolRun, List.foldl_cons, poolStep] at ht ⊢
      rw [ht]
      simp [Conn.Close, State.emit, poolReports, poolTrack, hw]

/-- C12: from a new pool (counter 0), after every sequence of `Get` and
`Close` calls (fewer than `2^63` of them) in which each `Close` is on a
connection obtained and not closed before, the counter is the number of
connections obtained and not yet closed, hence not negative, and the samples
reported are, call by call, that number right after the call: after its
increment for a `Get`, after its decrement for a `Close`. -/
theorem pool_counter_tracks_outstanding (st : Store) (ops : List PoolOp)
    (hwf : poolWellFormed (0, []) ops = true) (hlen : (ops.length : Int) < 2 ^ 63) :
    (State.init st).c = 0 ∧
      (poolRun (State.init st) ops).c = ((poolOpen (0, []) ops).length : Int) ∧
      0 ≤ (poolRun (State.init st) ops).c ∧
      (poolRun (State.init st) ops).trace = poolReports (0, []) ops ∧
      (∀ s : State, (pool.Get s).c = wrap64 (s.c + 1) ∧
        (pool.Get s).trace = s.trace ++ [.sample "redis.connections" (pool.Get s).c "at=acquire"]) ∧
      (∀ s : State, (Conn.Close s).c = wrap64 (s.c + -1) ∧
        (Conn.Close s).trace =
          s.trace ++ [.sample "redis.connections" (Conn.Close s).c "at=release"]) := by
  have h := poolRun_invariant ops (0, []) (State.init st) hwf (by simp [State.init])
    (by simpa using hlen)
  refine ⟨rfl, h.1, ?_, ?_, fun s => ⟨rfl, rfl⟩, fun s => ⟨rfl, rfl⟩⟩
  · rw [h.1]
    exact Int.natCast_nonneg _
  · rw [h.2]
    simp [State.init]

theorem pool_counter_tracks_outstanding_witness :
    (poolRun (State.init Store.empty) [.get, .get, .close 0, .get, .close 2]).c = 1 :=
  (pool_counter_tracks_outstanding Store.empty [.get, .get, .close 0, .get, .close 2]
    (by decide) (by decide)).2.1


/-! ## Keys of distinct streams -/

theorem append_last_clash (c d s t : String) (x y : Char) (s0 t0 : List Char)
    (hs : s.data = s0 ++ [x]) (ht : t.data = t0 ++ [y]) (hxy : x ≠ y) : c ++ s ≠ d ++ t := by
  intro h
  have h2 := congrArg String.data h
  simp only [String.data_append, hs, ht] at h2
  have h3 := congrArg List.reverse h2
  simp only [List.reverse_append, List.reverse_singleton, List.singleton_append,
    List.cons_append, List.nil_append] at h3
  exact hxy (List.cons.inj h3).1

theorem Close_frame (wr : Writer) (s : State) :
    ∀ k, k ≠ channel.doneID wr.key → (wr.Close s).1.store k = s.store k := by
  intro k hk
  have h := roundTrip_frame s
  unfold Writer.Close
  split
  · rename_i s1 e heq
    rw [heq] at h
    rw [show s1.store = s.store from h.1]
  · rename_i s1 heq
    rw [heq] at h
    have h1 : s1.store = s.store := h.1
    simp [Store.set, hk, h1]

theorem Kill_frame (c : String) (s : State) :
    ∀ k, k ≠ channel.killID c → (Kill c s).1.store k = s.store k := by
  intro k hk
  have h := roundTrip_frame s
  unfold Kill
  split
  · rename_i s1 e heq
    rw [heq] at h
    rw [show s1.store = s.store from h.1]
  · rename_i s1 heq
    rw [heq] at h
    have h1 : s1.store = s.store := h.1
    simp [Store.set, hk, h1]

theorem Register_frame (c : String) (s : State) :
    ∀ k, k ≠ channel.id c → (RedisRegistrar.Register c s).1.store k = s.store k := by
  intro k hk
  rw [Register_store]
  split
  · simp [Store.set, hk]
  · rfl

theorem keys_disjoint (c d : channel) (hcd : c ≠ d)
    (hc : c ≠ d ++ ":id" ∧ c ≠ d ++ ":done" ∧ c ≠ d ++ ":kill")
    (hd : d ≠ c ++ ":id" ∧ d ≠ c ++ ":done" ∧ d ≠ c ++ ":kill") :
    ∀ k ∈ channel.keys c, k ∉ channel.keys d := by
  have id_done : ∀ a b : String, a ++ ":id" ≠ b ++ ":done" := fun a b =>
    append_last_clash a b ":id" ":done" 'd' 'e' [':', 'i'] [':', 'd', 'o', 'n'] rfl rfl (by decide)
  have id_kill : ∀ a b : String, a ++ ":id" ≠ b ++ ":kill" := fun a b =>
    append_last_clash a b ":id" ":kill" 'd' 'l' [':', 'i'] [':', 'k', 'i', 'l'] rfl rfl (by decide)
  have done_kill : ∀ a b : String, a ++ ":done" ≠ b ++ ":kill" := fun a b =>
    append_last_clash a b ":done" ":kill" 'e' 'l' [':', 'd', 'o', 'n'] [':', 'k', 'i', 'l'] rfl rfl
      (by decide)
  have same : ∀ t : String, c ++ t ≠ d ++ t := fun t h =>
    hcd (append_right_cancel_string c d t h)
  intro k hk hk2
  simp only [channel.keys, channel.id, channel.doneID, channel.killID, List.mem_cons,
    List.mem_singleton, List.not_mem_nil, or_false] at hk hk2
  rcases hk with rfl | rfl | rfl | rfl <;> rcases hk2 with h | h | h | h
  · exact hcd h
  · exact hc.1 h
  · exact hc.2.1 h
  · exact hc.2.2 h
  · exact hd.1 h.symm
  · exact same _ h
  · exact id_done _ _ h
  · exact id_kill _ _ h
  · exact hd.2.1 h.symm
  · exact id_done _ _ h.symm
  · exact same _ h
  · exact done_kill _ _ h
  · exact hd.2.2 h.symm
  · exact id_kill _ _ h.symm
  · exact done_kill _ _ h.symm
  · exact same _ h


/-- C13 as stated fails: the names `"x:id"` and `"x"` are distinct, yet the
bare log key of stream `"x:id"` is the registration key of stream `"x"`, and
registering `"x"` in an empty key space creates that key. -/
theorem channel_keys_collide :
    (¬ ∀ c d : channel, c ≠ d → ∀ k ∈ channel.keys c, k ∉ channel.keys d) ∧
      (¬ ∀ (c d : channel) (s : State), c ≠ d →
        ∀ k ∈ channel.keys c, (RedisRegistrar.Register d s).1.store k = s.store k) := by
  constructor
  · intro h
    exact h "x:id" "x" (by decide) "x:id" (by decide) (by decide)
  · intro h
    exact absurd (h "x:id" "x" (State.init Store.empty) (by decide) "x:id" (by decide))
      (by decide)

/-- C13 amended: for two distinct channel names neither of which is the other
followed by `":id"`, `":done"` or `":kill"`, no key of `c` (bare, `:id`,
`:done`, `:kill`) is a key of `d`, and registering `d`, writing to `d`,
completing `d` or killing `d` leaves every key of `c` as it was. -/
theorem channel_keys_isolated (c d : channel) (hcd : c ≠ d)
    (hc : c ≠ d ++ ":id" ∧ c ≠ d ++ ":done" ∧ c ≠ d ++ ":kill")
    (hd : d ≠ c ++ ":id" ∧ d ≠ c ++ ":done" ∧ d ≠ c ++ ":kill") :
    (∀ k ∈ channel.keys c, k ∉ channel.keys d) ∧
      ∀ (s : State) (p : List Byte), ∀ k ∈ channel.keys c,
        (RedisRegistrar.Register d s).1.store k = s.store k ∧
          (Writer.Write ⟨d⟩ p s).1.store k = s.store k ∧
          (Writer.Close ⟨d⟩ s).1.store k = s.store k ∧
          (Kill d s).1.store k = s.store k := by
  have hdis := keys_disjoint c d hcd hc hd
  refine ⟨hdis, fun s p k hk => ?_⟩
  have hnot := hdis k hk
  simp only [channel.keys, List.mem_cons, List.mem_singleton, List.not_mem_nil, or_false,
    not_or] at hnot
  exact ⟨Register_frame d s k hnot.2.1, (Write_frame ⟨d⟩ p s).2 k hnot.1,
    Close_frame ⟨d⟩ s k hnot.2.2.1, Kill_frame d s k hnot.2.2.2⟩

theorem channel_keys_isolated_witness :
    channel.id "a" ∉ channel.keys "b" :=
  (channel_keys_isolated "a" "b" (by decide) (by decide) (by decide)).1 (channel.id "a")
    (by decide)

/-! ## The publish handler: the discard -/

theorem Len_ok (wr : Writer) (s1 s2 : State) (wl : Int) (h : Len wr s1 = (s2, wl, none)) :
    s2.store = s1.store ∧ s2.trace = s1.trace ∧ (s2.store (channel.id wr.key)).isSome = true ∧
      wl = ((logOf s2.store wr.key).length : Int) := by
  have hf := Len_frame wr s1
  rw [h] at hf
  refine ⟨hf.1, hf.2, ?_⟩
  unfold Len at h
  split at h
  · simp at h
  · rename_i s3 heq
    split at h
    · simp at h
    · rename_i hid
      simp only [Prod.mk.injEq, and_true] at h
      obtain ⟨h1, h2⟩ := h
      subst h1
      refine ⟨?_, h2.symm⟩
      cases hx : s3.store (channel.id wr.key) with
      | none => simp [hx] at hid
      | some e => rfl

/-- C14: in `publish`, once the writer is open and `Len` has returned `wl`.
When `wl > 0` and fewer than `wl` bytes of body arrive, the discard fails with
the error that ended the body (`io.EOF` for a clean end), the handler answers
through `handleError` and returns: the key space is as before (nothing
appended, no `:done`) and the only effect is the deferred close of the body (no
close of the writer, no upload).  When `wl = 0` the body reaches the copy
whole, and the log after the handler is the log after copying all of it: with
no round trip of the writes failing, the stored log followed by every byte
that arrived. -/
theorem publish_discard_short_body
    (handleError : ResponseWriter → Request → GoError → ResponseWriter)
    (w : ResponseWriter) (r : Request) (s s1 s2 : State) (writer : Writer) (wl : Int)
    (hchunked : StringInSlice r.TransferEncoding "chunked" = true)
    (hwriter : NewWriter r.key s = (s1, .ok writer))
    (hlen : Len writer s1 = (s2, wl, none)) :
    (0 < wl → (r.Body.data.length : Int) < wl →
        (discardStored r.Body wl).2 = some (r.Body.err.getD .EOF) ∧
          publish handleError w r s =
            (handleError w r (r.Body.err.getD .EOF), s2.emit .bodyClose) ∧
          (publish handleError w r s).2.store = s.store ∧
          publishEffects handleError w r s = [.bodyClose]) ∧
      (wl = 0 →
        discardStored r.Body wl = (r.Body, none) ∧
          logOf (publish handleError w r s).2.store r.key =
            logOf (ioCopy writer r.Body s2).1.store r.key ∧
          (s2.faults = [] →
            logOf (ioCopy writer r.Body s2).1.store r.key =
              logOf s.store r.key ++ r.Body.data)) := by
  have hk := NewWriter_ok_key r.key s s1 writer hwriter
  have hNf := NewWriter_frame r.key s
  rw [hwriter] at hNf
  have hL := Len_ok writer s1 s2 wl hlen
  have hst : s2.store = s.store := by rw [hL.1]; exact hNf.1
  have htr : s2.trace = s.trace := by rw [hL.2.1]; exact hNf.2
  constructor
  · intro hpos hshort
    have hd : discardStored r.Body wl = ({ r.Body with data := [] }, some (r.Body.err.getD .EOF)) := by
      unfold discardStored Discard
      have h1 : ¬ (wl.toNat ≤ r.Body.data.length) := by omega
      simp [hpos, h1]
    have hp : publish handleError w r s =
        (handleError w r (r.Body.err.getD .EOF), s2.emit .bodyClose) := by
      unfold publish
      simp [hchunked, hwriter, hlen, hd]
    refine ⟨by rw [hd], hp, ?_, ?_⟩
    · rw [hp]
      exact hst
    · unfold publishEffects
      rw [hp]
      simp [State.emit, htr]
  · intro h0
    subst h0
    have hd : discardStored r.Body 0 = (r.Body, none) := by
      simp [discardStored]
    refine ⟨hd, ?_, fun hrt => ?_⟩
    · have hne : r.key ≠ channel.doneID writer.key := by
        rw [hk]
        exact (doneID_ne_self r.key).symm
      unfold publish
      simp only [hchunked, Bool.not_true, Bool.false_eq_true, if_false, hwriter, hlen, hd]
      cases hC : ioCopy writer r.Body s2 with
      | mk s3 e4 =>
        cases e4 with
        | none =>
          simp only [State.emit]
          unfold logOf
          rw [Close_frame writer _ r.key hne]
        | some e =>
          cases e with
          | netError timeout msg => cases timeout <;> simp [State.emit]
          | _ => simp [State.emit]
    · have hlog : logOf s2.store r.key = logOf s.store r.key := by rw [hst]
      have hreg : (s2.store (channel.id r.key)).isSome = true := by
        rw [← hk]
        exact hL.2.2.1
      have hwr : writer = ⟨r.key⟩ := by
        cases writer
        simp only at hk
        rw [hk]
      rw [hwr, (ioCopy_no_fault r.key r.Body s2 hrt hreg).2.2, hlog]

theorem ioCopy_second_write_fails (key : String) (b : Body) (s : State) (e : GoError)
    (rest : List (Option GoError)) (hf : s.faults = none :: some e :: rest)
    (hreg : (s.store (channel.id key)).isSome = true)
    (hlen : defaultBufSize < b.data.length) :
    (ioCopy ⟨key⟩ b s).2 = some e ∧
      logOf (ioCopy ⟨key⟩ b s).1.store key =
        logOf s.store key ++ b.data.take defaultBufSize := by
  have hne : ¬ s.store (channel.id key) = none := by
    intro hx
    rw [hx] at hreg
    simp at hreg
  have hd1 : b.data ≠ [] := by
    intro hx
    rw [hx] at hlen
    simp at hlen
  have hd2 : b.data.drop defaultBufSize ≠ [] := by
    intro hx
    rw [List.drop_eq_nil_iff] at hx
    omega
  obtain ⟨n, hn⟩ : ∃ n, b.data.length = n + 2 := ⟨b.data.length - 2, by
    simp only [defaultBufSize] at hlen; omega⟩
  unfold ioCopy
  rw [hn]
  simp [copyBuffers, hd1, hd2, writeBuffers, Writer.Write, State.roundTrip, hf, hne,
    logOf_set_self]

theorem publish_discard_short_body_witness :
    publishEffects notFoundHandler .fresh
        ⟨["chunked"], "x", "/streams/x", ⟨bytes "he", none⟩⟩
        (registeredWith "x" (bytes "hello")) = [.bodyClose] :=
  ((publish_discard_short_body notFoundHandler .fresh
    ⟨["chunked"], "x", "/streams/x", ⟨bytes "he", none⟩⟩
    (registeredWith "x" (bytes "hello")) (registeredWith "x" (bytes "hello"))
    (registeredWith "x" (bytes "hello")) ⟨"x"⟩ 5 (by decide) (by rfl) (by rfl)).1
    (by decide) (by decide)).2.2.2

/-! ## The logging helpers -/

theorem logging_helpers_when_unset_or_discarding (openable : String → Bool) (logFile : String)
    (fields : LogFields) (b : Busltee) (h : logFile = "" ∨ openable logFile = false) :
    (∀ k, logFields Busltee.unset k = none) ∧
      log_go.CloseLogs Busltee.unset = .ok Busltee.unset ∧
      output openable logFile = .Discard ∧
      (ConfigureLogs openable logFile fields b).logrusOutput = some .Discard ∧
      logger_go.CloseLogs (ConfigureLogs openable logFile fields b) =
        .ok (ConfigureLogs openable logFile fields b) ∧
      (OpenLogs openable logFile b).out = some .Discard ∧
      log_go.CloseLogs (OpenLogs openable logFile b) = .ok (OpenLogs openable logFile b) := by
  have ho : output openable logFile = .Discard := by
    unfold output
    rcases h with h | h
    · simp [h]
    · simp [h]
  refine ⟨fun k => rfl, rfl, ho, ?_, ?_, ?_, ?_⟩
  · simp [ConfigureLogs, ho]
  · simp [logger_go.CloseLogs, ConfigureLogs, ho]
  · simp [OpenLogs, ho]
  · simp [log_go.CloseLogs, OpenLogs, ho]

/-- C15: with the package logger unset (`l == nil`, `ConfigureLogs` never
called), `CloseLogs` of `logger.go` does not return: selecting `l.out` through
the nil pointer is a run-time panic. -/
theorem logger_CloseLogs_unset_panics :
    Busltee.unset.l.isNone = true ∧ Busltee.unset.out.isNone = true ∧
      logger_go.CloseLogs Busltee.unset =
        .panic "invalid memory address or nil pointer dereference" := by
  exact ⟨rfl, rfl, rfl⟩

end Busl
